import Mathlib

/-!
Verification of the DealShield rule-based risk engine (src/app.js).

The definitions below are a shallow embedding of the JavaScript source:
`scoreRisk`, `extractLinks`, `extractAmount`, `extractDeadline` and
`highlightMatches`, together with the helpers they use (HTML escaping,
JS `Set`-style insertion-ordered deduplication, and a small backtracking
matcher that interprets the literal regular expressions of the source).
-/

set_option maxRecDepth 10000

namespace DealShield

/-! ### Character helpers -/

/-- ASCII decimal digit, the class `\d` of the source regexes. -/
def digitC (c : Char) : Bool := ('0' ≤ c && c ≤ '9')

/-- ASCII letter; the class `[a-z]` under the case-insensitive flag. -/
def alphaCI (c : Char) : Bool := ('a' ≤ c && c ≤ 'z') || ('A' ≤ c && c ≤ 'Z')

/-- JS word character (`\w`): ASCII letter, digit or underscore. -/
def isWordChar (c : Char) : Bool := alphaCI c || digitC c || c == '_'

/-- The double-quote character (written by code point to keep strings plain). -/
def quoteChar : Char := Char.ofNat 34

/-- The ASCII apostrophe character (written by code point). -/
def aposChar : Char := Char.ofNat 39

/-- JS whitespace class `\s`: ASCII blanks plus the Unicode space
characters that JavaScript includes in `\s`. -/
def jsWhitespace (c : Char) : Bool :=
  c == ' ' || c == Char.ofNat 9 || c == Char.ofNat 10 || c == Char.ofNat 13 ||
  c == Char.ofNat 11 || c == Char.ofNat 12 || c == Char.ofNat 160 ||
  c == Char.ofNat 5760 || (Char.ofNat 8192 ≤ c && c ≤ Char.ofNat 8202) ||
  c == Char.ofNat 8232 || c == Char.ofNat 8233 || c == Char.ofNat 8239 ||
  c == Char.ofNat 8287 || c == Char.ofNat 12288 || c == Char.ofNat 65279

/-- The class `[^\s)]` used for the tail of a URL match. -/
def linkChar (c : Char) : Bool := !jsWhitespace c && c != ')'

/-- The class `[a-z0-9.-]` (case-insensitive) for domain-like tokens. -/
def domChar (c : Char) : Bool := alphaCI c || digitC c || c == '.' || c == '-'

/-- The class `[,\s]` separating digit groups in the amount regex. -/
def sepC (c : Char) : Bool := c == ',' || jsWhitespace c

/-! ### Case-insensitive substring search

The detector predicates of `scoreRisk` are regex tests of the form
`/(lit1|lit2|...)/i.test(text)` where every alternative is a literal
phrase; such a test holds exactly when one of the literals occurs in the
text up to ASCII case. -/

/-- Case-insensitive "starts with" on character lists. -/
def startsWithCI : List Char → List Char → Bool
  | [], _ => true
  | _ :: _, [] => false
  | a :: as, b :: bs => (a.toLower == b.toLower) && startsWithCI as bs

/-- Case-insensitive "occurs as a contiguous run" on character lists. -/
def containsSeqCI (needle : List Char) : List Char → Bool
  | [] => startsWithCI needle []
  | c :: rest => startsWithCI needle (c :: rest) || containsSeqCI needle rest

/-- Case-insensitive substring test on strings, the meaning of a literal
regex alternative under the `i` flag. -/
def containsCI (text phrase : String) : Bool :=
  containsSeqCI phrase.data text.data

/-! ### Insertion-ordered deduplication

`Array.from(new Set(xs))` in the source deduplicates keeping the first
occurrence of every element, in first-seen order. -/

/-- Deduplicate `l`, skipping elements already in `seen`, keeping the
first occurrence of each element in order (JS `Set` iteration order). -/
def insertionDedup {α : Type} [DecidableEq α] (seen : List α) : List α → List α
  | [] => []
  | c :: t => if c ∈ seen then insertionDedup seen t else c :: insertionDedup (c :: seen) t

/-- Index of the first occurrence of `a` (list length when absent). -/
def idxOf {α : Type} [DecidableEq α] (a : α) : List α → Nat
  | [] => 0
  | c :: t => if c = a then 0 else idxOf a t + 1

theorem mem_insertionDedup {α : Type} [DecidableEq α] (l : List α) :
    ∀ (seen : List α) (a : α), a ∈ insertionDedup seen l ↔ a ∈ l ∧ a ∉ seen := by
  induction l with
  | nil => intro seen a; simp [insertionDedup]
  | cons c t ih =>
    intro seen a
    by_cases hc : c ∈ seen
    · rw [insertionDedup, if_pos hc, ih]
      constructor
      · rintro ⟨hat, hns⟩; exact ⟨List.mem_cons_of_mem _ hat, hns⟩
      · rintro ⟨hm, hns⟩
        rcases List.mem_cons.mp hm with rfl | hat
        · exact absurd hc hns
        · exact ⟨hat, hns⟩
    · rw [insertionDedup, if_neg hc]
      constructor
      · intro hm
        rcases List.mem_cons.mp hm with rfl | hm'
        · exact ⟨List.mem_cons_self _ _, hc⟩
        · rcases (ih (c :: seen) a).mp hm' with ⟨hat, hns⟩
          refine ⟨List.mem_cons_of_mem _ hat, fun hs => hns (List.mem_cons_of_mem _ hs)⟩
      · rintro ⟨hm, hns⟩
        rcases List.mem_cons.mp hm with rfl | hat
        · exact List.mem_cons_self _ _
        · by_cases hac : a = c
          · subst hac; exact List.mem_cons_self _ _
          · refine List.mem_cons_of_mem _ ((ih (c :: seen) a).mpr ⟨hat, ?_⟩)
            intro hs
            rcases List.mem_cons.mp hs with h | h
            · exact hac h
            · exact hns h

theorem nodup_insertionDedup {α : Type} [DecidableEq α] (l : List α) :
    ∀ seen : List α, (insertionDedup seen l).Nodup := by
  induction l with
  | nil => intro seen; simp [insertionDedup]
  | cons c t ih =>
    intro seen
    by_cases hc : c ∈ seen
    · rw [insertionDedup, if_pos hc]; exact ih seen
    · rw [insertionDedup, if_neg hc]
      refine List.nodup_cons.mpr ⟨?_, ih (c :: seen)⟩
      intro hmem
      exact ((mem_insertionDedup t (c :: seen) c).mp hmem).2 (List.mem_cons_self _ _)

theorem insertionDedup_sublist {α : Type} [DecidableEq α] (l : List α) :
    ∀ seen : List α, (insertionDedup seen l).Sublist l := by
  induction l with
  | nil => intro seen; simp [insertionDedup]
  | cons c t ih =>
    intro seen
    by_cases hc : c ∈ seen
    · rw [insertionDedup, if_pos hc]; exact (ih seen).cons c
    · rw [insertionDedup, if_neg hc]; exact (ih (c :: seen)).cons₂ c

theorem idxOf_inj {α : Type} [DecidableEq α] (l : List α) :
    ∀ a b : α, a ∈ l → b ∈ l → idxOf a l = idxOf b l → a = b := by
  induction l with
  | nil => intro a b ha; cases ha
  | cons c t ih =>
    intro a b ha hb h
    by_cases hca : c = a <;> by_cases hcb : c = b
    · exact hca ▸ hcb
    · rw [idxOf, if_pos hca, idxOf, if_neg hcb] at h; exact absurd h.symm (Nat.succ_ne_zero _)
    · rw [idxOf, if_neg hca, idxOf, if_pos hcb] at h; exact absurd h (Nat.succ_ne_zero _)
    · rw [idxOf, if_neg hca, idxOf, if_neg hcb] at h
      have hat : a ∈ t := by
        rcases List.mem_cons.mp ha with h' | h'
        · exact absurd h'.symm hca
        · exact h'
      have hbt : b ∈ t := by
        rcases List.mem_cons.mp hb with h' | h'
        · exact absurd h'.symm hcb
        · exact h'
      exact ih a b hat hbt (Nat.succ_injective h)

theorem insertionDedup_idx_mono {α : Type} [DecidableEq α] (l : List α) :
    ∀ (seen : List α) (a b : α),
      a ∈ insertionDedup seen l → b ∈ insertionDedup seen l →
      idxOf a l < idxOf b l →
      idxOf a (insertionDedup seen l) < idxOf b (insertionDedup seen l) := by
  induction l with
  | nil => intro seen a b ha; simp [insertionDedup] at ha
  | cons c t ih =>
    intro seen a b ha hb h
    by_cases hc : c ∈ seen
    · rw [insertionDedup, if_pos hc] at ha hb ⊢
      have haseen : a ∈ t ∧ a ∉ seen := (mem_insertionDedup t seen a).mp ha
      have hbseen : b ∈ t ∧ b ∉ seen := (mem_insertionDedup t seen b).mp hb
      have hca : c ≠ a := fun h' => haseen.2 (h' ▸ hc)
      have hcb : c ≠ b := fun h' => hbseen.2 (h' ▸ hc)
      rw [idxOf, if_neg hca, idxOf, if_neg hcb] at h
      exact ih seen a b ha hb (Nat.lt_of_succ_lt_succ h)
    · rw [insertionDedup, if_neg hc] at ha hb ⊢
      by_cases hca : c = a
      · subst hca
        have hcb : c ≠ b := by
          intro h'; subst h'; exact Nat.lt_irrefl _ h
        have hbmem : b ∈ insertionDedup (c :: seen) t := by
          rcases List.mem_cons.mp hb with h' | h'
          · exact absurd h'.symm hcb
          · exact h'
        rw [idxOf, if_pos rfl, idxOf, if_neg hcb]
        exact Nat.succ_pos _
      · by_cases hcb : c = b
        · subst hcb
          rw [idxOf, if_neg hca, idxOf, if_pos rfl] at h
          exact absurd h (Nat.not_lt_zero _)
        · have hamem : a ∈ insertionDedup (c :: seen) t := by
            rcases List.mem_cons.mp ha with h' | h'
            · exact absurd h'.symm hca
            · exact h'
          have hbmem : b ∈ insertionDedup (c :: seen) t := by
            rcases List.mem_cons.mp hb with h' | h'
            · exact absurd h'.symm hcb
            · exact h'
          rw [idxOf, if_neg hca, idxOf, if_neg hcb] at h
          have := ih (c :: seen) a b hamem hbmem (Nat.lt_of_succ_lt_succ h)
          rw [idxOf, if_neg hca, idxOf, if_neg hcb]
          exact Nat.succ_lt_succ this

theorem insertionDedup_idx_iff {α : Type} [DecidableEq α] (l : List α) (a b : α)
    (ha : a ∈ insertionDedup [] l) (hb : b ∈ insertionDedup [] l) :
    idxOf a l < idxOf b l ↔ idxOf a (insertionDedup [] l) < idxOf b (insertionDedup [] l) := by
  constructor
  · exact insertionDedup_idx_mono l [] a b ha hb
  · intro h
    have hal : a ∈ l := ((mem_insertionDedup l [] a).mp ha).1
    have hbl : b ∈ l := ((mem_insertionDedup l [] b).mp hb).1
    rcases Nat.lt_trichotomy (idxOf a l) (idxOf b l) with h' | h' | h'
    · exact h'
    · have : a = b := idxOf_inj l a b hal hbl h'
      subst this
      exact absurd h (Nat.lt_irrefl _)
    · have := insertionDedup_idx_mono l [] b a hb ha h'
      exact absurd h (Nat.lt_asymm this)

/-! ### A small backtracking regex interpreter

The source uses three non-literal regular expressions (for links, amounts
and deadlines). They are embedded as abstract terms of `RE` below and run
by a continuation-passing backtracking matcher with the JavaScript
semantics: leftmost match, alternatives tried left to right, greedy
quantifiers with backtracking, and ASCII `\b` word boundaries. The
matcher consumes one unit of fuel per step; all quantified subterms of
the embedded regexes consume at least one character, so a fuel budget
linear in the text length is sufficient and never reached. -/

inductive RE where
  | eps : RE
  | cls : (Char → Bool) → RE
  | seq : RE → RE → RE
  | alt : RE → RE → RE
  | star : RE → RE
  | opt : RE → RE
  | wb : RE

/-- Sequence a list of regex terms. -/
def reOfList : List RE → RE
  | [] => RE.eps
  | [r] => r
  | r :: rs => RE.seq r (reOfList rs)

/-- Alternation over a list, tried left to right. -/
def altOfList : List RE → RE
  | [] => RE.cls (fun _ => false)
  | [r] => r
  | r :: rs => RE.alt r (altOfList rs)

/-- Case-insensitive literal (each character matched up to `Char.toLower`). -/
def litCI (s : String) : RE :=
  reOfList (s.data.map (fun c => RE.cls (fun d => d.toLower == c.toLower)))

/-- Exactly `n` repetitions. -/
def repExactRe (r : RE) : Nat → RE
  | 0 => RE.eps
  | n + 1 => RE.seq r (repExactRe r n)

/-- Up to `n` further repetitions, greedy (nested optionals). -/
def optChainRe (r : RE) : Nat → RE
  | 0 => RE.eps
  | n + 1 => RE.opt (RE.seq r (optChainRe r n))

/-- The bounded quantifier `r{lo,hi}`, greedy. -/
def repRangeRe (r : RE) (lo hi : Nat) : RE :=
  RE.seq (repExactRe r lo) (optChainRe r (hi - lo))

/-- The quantifier `r+`, greedy. -/
def plusRe (r : RE) : RE := RE.seq r (RE.star r)

/-- The quantifier `r{n,}`, greedy. -/
def atLeastRe (r : RE) (n : Nat) : RE := RE.seq (repExactRe r n) (RE.star r)

/-- Backtracking matcher. `prev` is the character just before the current
position (for `\b`), `l` the remaining input, `k` the continuation; a
successful run returns the input remaining after the overall match. -/
def reRun : Nat → RE → Option Char → List Char →
    (Option Char → List Char → Option (List Char)) → Option (List Char)
  | 0, _, _, _, _ => none
  | _ + 1, RE.eps, prev, l, k => k prev l
  | _ + 1, RE.cls p, _, l, k =>
      match l with
      | [] => none
      | c :: rest => if p c then k (some c) rest else none
  | f + 1, RE.seq a b, prev, l, k =>
      reRun f a prev l (fun p2 l2 => reRun f b p2 l2 k)
  | f + 1, RE.alt a b, prev, l, k =>
      match reRun f a prev l k with
      | some r => some r
      | none => reRun f b prev l k
  | f + 1, RE.opt r, prev, l, k =>
      match reRun f r prev l k with
      | some res => some res
      | none => k prev l
  | f + 1, RE.star r, prev, l, k =>
      match reRun f r prev l (fun p2 l2 => reRun f (RE.star r) p2 l2 k) with
      | some res => some res
      | none => k prev l
  | _ + 1, RE.wb, prev, l, k =>
      let pw := match prev with | some c => isWordChar c | none => false
      let nw := match l with | c :: _ => isWordChar c | [] => false
      if pw != nw then k prev l else none

/-- Fuel budget for one match attempt: generous and linear in the input. -/
def reFuel (l : List Char) : Nat := 80 * l.length + 800

/-- All matches of `re` in the JS global-scan order: attempt a match at
each position from left to right, and continue after the matched text
(advancing one character when the attempt fails, as `lastIndex` does). -/
def matchScan (re : RE) : Nat → Option Char → List Char → List (List Char)
  | 0, _, _ => []
  | _ + 1, _, [] => []
  | f + 1, prev, l =>
      match reRun (reFuel l) re prev l (fun _ r => some r) with
      | some r =>
          let m := l.take (l.length - r.length)
          match l, m with
          | c :: rest, [] => [] :: matchScan re f (some c) rest
          | c :: _, m' => m' :: matchScan re f (some (m'.getLastD c)) r
          | [], _ => []
      | none =>
          match l with
          | [] => []
          | c :: rest => matchScan re f (some c) rest

/-- All matches of `re` in `l`, as `text.match(re)` returns them under
the `g` flag. -/
def jsMatchList (re : RE) (l : List Char) : List (List Char) :=
  matchScan re (l.length + 1) none l

/-! ### The three source regexes -/

/-- First URL alternative: `\bhttps?:\/\/[^\s)]+`. -/
def urlAlt1 : RE :=
  reOfList [RE.wb, litCI "http", RE.opt (litCI "s"), litCI "://", plusRe (RE.cls linkChar)]

/-- Second URL alternative: `\b(?:bit\.ly|t\.co|tinyurl\.com|goo\.gl)\/[^\s)]+`. -/
def urlAlt2 : RE :=
  reOfList [RE.wb,
    altOfList [litCI "bit.ly", litCI "t.co", litCI "tinyurl.com", litCI "goo.gl"],
    litCI "/", plusRe (RE.cls linkChar)]

/-- Third URL alternative: `\b[a-z0-9.-]+\.[a-z]{2,}(?:\/[^\s)]*)?`. -/
def urlAlt3 : RE :=
  reOfList [RE.wb, plusRe (RE.cls domChar), RE.cls (fun c => c == '.'),
    atLeastRe (RE.cls alphaCI) 2,
    RE.opt (RE.seq (litCI "/") (RE.star (RE.cls linkChar)))]

/-- The link regex of `extractLinks`. -/
def urlRe : RE := altOfList [urlAlt1, urlAlt2, urlAlt3]

/-- First amount alternative: `(\$|€|£)\s?\d{1,3}(?:[,\s]\d{3})*(?:\.\d{2})?`. -/
def amountAlt1 : RE :=
  reOfList [RE.cls (fun c => c == '$' || c == '€' || c == '£'),
    RE.opt (RE.cls jsWhitespace),
    repRangeRe (RE.cls digitC) 1 3,
    RE.star (RE.seq (RE.cls sepC) (repExactRe (RE.cls digitC) 3)),
    RE.opt (RE.seq (RE.cls (fun c => c == '.')) (repExactRe (RE.cls digitC) 2))]

/-- Second amount alternative:
`\b\d{1,3}(?:[,\s]\d{3})*(?:\.\d{2})?\s?(USD|EUR|GBP)\b`. -/
def amountAlt2 : RE :=
  reOfList [RE.wb,
    repRangeRe (RE.cls digitC) 1 3,
    RE.star (RE.seq (RE.cls sepC) (repExactRe (RE.cls digitC) 3)),
    RE.opt (RE.seq (RE.cls (fun c => c == '.')) (repExactRe (RE.cls digitC) 2)),
    RE.opt (RE.cls jsWhitespace),
    altOfList [litCI "USD", litCI "EUR", litCI "GBP"],
    RE.wb]

/-- The amount regex of `extractAmount`. -/
def amountRe : RE := RE.alt amountAlt1 amountAlt2

/-- Deadline alternative `in\s+\d{1,3}\s+(days?|weeks?)`. -/
def dlA : RE :=
  reOfList [litCI "in", plusRe (RE.cls jsWhitespace),
    repRangeRe (RE.cls digitC) 1 3, plusRe (RE.cls jsWhitespace),
    RE.alt (RE.seq (litCI "day") (RE.opt (litCI "s")))
           (RE.seq (litCI "week") (RE.opt (litCI "s")))]

/-- Deadline alternative `by\s+\w+\s+\d{1,2}`. -/
def dlB : RE :=
  reOfList [litCI "by", plusRe (RE.cls jsWhitespace),
    plusRe (RE.cls isWordChar), plusRe (RE.cls jsWhitespace),
    repRangeRe (RE.cls digitC) 1 2]

/-- Deadline alternative `\b\d{1,2}\/\d{1,2}\/\d{2,4}\b`. -/
def dlC : RE :=
  reOfList [RE.wb, repRangeRe (RE.cls digitC) 1 2, litCI "/",
    repRangeRe (RE.cls digitC) 1 2, litCI "/",
    repRangeRe (RE.cls digitC) 2 4, RE.wb]

/-- Deadline alternative `\b\d{4}-\d{2}-\d{2}\b`. -/
def dlD : RE :=
  reOfList [RE.wb, repExactRe (RE.cls digitC) 4, litCI "-",
    repExactRe (RE.cls digitC) 2, litCI "-",
    repExactRe (RE.cls digitC) 2, RE.wb]

/-- The deadline regex of `extractDeadline`:
`\b(in\s+\d{1,3}\s+(days?|weeks?)|by\s+\w+\s+\d{1,2}|\b\d{1,2}\/\d{1,2}\/\d{2,4}\b|\b\d{4}-\d{2}-\d{2}\b)\b`. -/
def deadlineRe : RE :=
  reOfList [RE.wb, altOfList [dlA, dlB, dlC, dlD], RE.wb]

/-! ### The field extractors of the source -/

/-- Raw matches of the link regex, before capping and deduplication. -/
def rawLinkMatches (text : String) : List String :=
  (jsMatchList urlRe text.data).map String.mk

/-- Embedding of `extractLinks`: all link matches, the first 8 kept,
deduplicated in first-seen order (`Array.from(new Set(out))`). -/
def extractLinks (text : String) : List String :=
  insertionDedup [] ((rawLinkMatches text).take 8)

/-- Embedding of `extractAmount`: the first amount match, or `none`. -/
def extractAmount (text : String) : Option String :=
  ((jsMatchList amountRe text.data).head?).map String.mk

/-- Embedding of `extractDeadline`: the first deadline match, or `none`. -/
def extractDeadline (text : String) : Option String :=
  ((jsMatchList deadlineRe text.data).head?).map String.mk

/-! ### Highlighting (`escapeHtml` and `highlightMatches`) -/

/-- Embedding of the single-character replacements of `escapeHtml`. -/
def escapeHtmlChar (c : Char) : List Char :=
  if c == '&' then "&amp;".data
  else if c == '<' then "&lt;".data
  else if c == '>' then "&gt;".data
  else if c == quoteChar then "&quot;".data
  else if c == aposChar then "&#039;".data
  else [c]

/-- Embedding of `escapeHtml`. -/
def escapeHtml (s : String) : String :=
  String.mk ((s.data.map escapeHtmlChar).flatten)

/-- Stable insertion of a string into a list sorted by decreasing length;
equal lengths keep their original relative order, as the stable JS
`sort((a,b) => b.length - a.length)` does. -/
def insertByLenDesc (a : String) : List String → List String
  | [] => [a]
  | b :: l => if a.length < b.length then b :: insertByLenDesc a l else a :: b :: l

/-- Stable sort by decreasing string length. -/
def sortByLenDesc : List String → List String
  | [] => []
  | a :: l => insertByLenDesc a (sortByLenDesc l)

/-- Opening highlight marker inserted by the replacement callback. -/
def markOpen : List Char := "<mark>".data

/-- Closing highlight marker inserted by the replacement callback. -/
def markClose : List Char := "</mark>".data

/-- One global, case-insensitive, literal regex replacement
`safe.replace(re, m => ...m...)`: scan left to right, wrap each
non-overlapping occurrence of `phrase` in highlight markers, keeping the
original casing of the matched text. The fuel is the input length; each
step consumes at least one character. The `phrase.isEmpty` branch is a
totality guard only: `highlightMatches` filters out the empty string
before replacing. -/
def replaceMarkAux (phrase : List Char) : Nat → List Char → List Char
  | 0, l => l
  | _ + 1, [] => []
  | f + 1, c :: rest =>
      if phrase.isEmpty then c :: replaceMarkAux phrase f rest
      else if startsWithCI phrase (c :: rest) then
        markOpen ++ (c :: rest).take phrase.length ++ markClose ++
          replaceMarkAux phrase f ((c :: rest).drop phrase.length)
      else c :: replaceMarkAux phrase f rest

/-- Global case-insensitive literal replacement wrapping matches in
highlight markers. -/
def replaceMark (phrase : List Char) (l : List Char) : List Char :=
  replaceMarkAux phrase l.length l

/-- Embedding of `highlightMatches`: escape the text, deduplicate the
phrases, drop empties, sort by decreasing length, then apply the
sequential global replacements in that order. -/
def highlightMatches (text : String) (phraseList : List String) : String :=
  let uniq := sortByLenDesc ((insertionDedup [] phraseList).filter (fun s => !s.isEmpty))
  String.mk (uniq.foldl (fun acc phrase => replaceMark phrase.data acc) (escapeHtml text).data)

/-! ### The risk engine (`scoreRisk`) -/

/-- One itemized reason of a risk result, as pushed by `add`. -/
structure RiskReason where
  label : String
  pts : Int
  triggerPhrases : List String
deriving DecidableEq, Repr

/-- The value returned by `scoreRisk`. -/
structure RiskResult where
  score : Int
  level : String
  reasons : List RiskReason
  plan : List String
  links : List String
deriving DecidableEq, Repr

/-- One signal detector of the fixed catalog: a predicate over the text
together with the point delta, label, trigger phrases and plan actions
that `add` records when the predicate holds. -/
structure Detector where
  cond : String → Bool
  pts : Int
  label : String
  triggerPhrases : List String
  actions : List String

/-- Urgency test `/(urgent|asap|today|immediately|right now|rush)/i`. -/
def urgencyHit (text : String) : Bool :=
  containsCI text "urgent" || containsCI text "asap" || containsCI text "today" ||
  containsCI text "immediately" || containsCI text "right now" || containsCI text "rush"

/-- Secrecy test `/(confidential|don’t tell|keep this secret)/i`; note the
typographic apostrophe in the middle alternative, exactly as in the source. -/
def secrecyHit (text : String) : Bool :=
  containsCI text "confidential" || containsCI text "don’t tell" ||
  containsCI text "keep this secret"

/-- Advance-fee test
`/(activation fee|processing fee|release the funds|advance fee|to start, pay)/i`. -/
def advanceFeeHit (text : String) : Bool :=
  containsCI text "activation fee" || containsCI text "processing fee" ||
  containsCI text "release the funds" || containsCI text "advance fee" ||
  containsCI text "to start, pay"

/-- Payment-details-change test
`/(bank details have changed|new account|pay to the new|updated payment details)/i`. -/
def payChangeHit (text : String) : Bool :=
  containsCI text "bank details have changed" || containsCI text "new account" ||
  containsCI text "pay to the new" || containsCI text "updated payment details"

/-- Shortener test: some extracted link matches
`/(bit\.ly|t\.co|tinyurl\.com|goo\.gl)/i`. -/
def shortLinkHit (text : String) : Bool :=
  (extractLinks text).any (fun l =>
    containsCI l "bit.ly" || containsCI l "t.co" || containsCI l "tinyurl.com" ||
    containsCI l "goo.gl")

/-- Crypto-exclusivity test `/(only accept crypto|crypto only|usdt only)/i`. -/
def cryptoOnlyHit (text : String) : Bool :=
  containsCI text "only accept crypto" || containsCI text "crypto only" ||
  containsCI text "usdt only"

/-- Detector 1 of the catalog (urgency vocabulary, +12). -/
def urgencyDetector : Detector :=
  ⟨urgencyHit, 12, "Urgency pressure",
    ["urgent", "asap", "today", "immediately", "right now", "rush"],
    ["Slow down: verify key terms before sending money."]⟩

/-- Detector 2 of the catalog (secrecy vocabulary, +18). -/
def secrecyDetector : Detector :=
  ⟨secrecyHit, 18, "Secrecy request",
    ["confidential", "don’t tell", "keep this secret"],
    ["Treat secrecy requests as a red flag. Confirm identity via a second channel."]⟩

/-- Detector 3 of the catalog (advance fee, +28); its trigger-phrase list
omits the regex alternative "release the funds", as in the source. -/
def advanceFeeDetector : Detector :=
  ⟨advanceFeeHit, 28, "Advance-fee / pay-first pattern",
    ["activation fee", "processing fee", "advance fee", "to start, pay"],
    ["Do not pay fees upfront. Require clear contract + verifiable business identity.",
     "Ask for a standard invoice and verifiable company details."]⟩

/-- Detector 4 of the catalog (payment details change, +30); its
trigger-phrase list omits the regex alternative "pay to the new". -/
def payChangeDetector : Detector :=
  ⟨payChangeHit, 30, "Payment details change request",
    ["bank details have changed", "new account", "updated payment details"],
    ["Freeze payments: confirm new payment details via a verified second channel (call / known contact).",
     "Compare the new details against previous invoices / contracts."]⟩

/-- Detector 5 of the catalog (shortened link, +20). -/
def shortLinkDetector : Detector :=
  ⟨shortLinkHit, 20, "Shortened link",
    ["bit.ly", "t.co", "tinyurl.com", "goo.gl"],
    ["Avoid shortened links for payments. Request the full official domain."]⟩

/-- Detector 6 of the catalog (crypto-only restriction, +16). -/
def cryptoOnlyDetector : Detector :=
  ⟨cryptoOnlyHit, 16, "Payment rail restriction (crypto-only)",
    ["only accept crypto", "crypto only", "usdt only"],
    ["Prefer standard invoicing and traceable business payment rails for first-time counterparties."]⟩

/-- Detector 7 of the catalog (missing amount, +10). -/
def missingAmountDetector : Detector :=
  ⟨fun text => (extractAmount text).isNone, 10, "Missing or unclear amount", [],
    ["Clarify the exact amount, currency, and milestone schedule in writing."]⟩

/-- Detector 8 of the catalog (missing deadline, +6). -/
def missingDeadlineDetector : Detector :=
  ⟨fun text => (extractDeadline text).isNone, 6, "Missing deadline / deliverables clarity", [],
    ["Confirm deliverables, acceptance criteria, and deadline."]⟩

/-- The fixed, ordered detector catalog: the sequence of conditional
`add(...)` calls in `scoreRisk`, in source order. -/
def detectors : List Detector :=
  [urgencyDetector, secrecyDetector, advanceFeeDetector, payChangeDetector,
   shortLinkDetector, cryptoOnlyDetector, missingAmountDetector, missingDeadlineDetector]

/-- The detectors whose predicate holds on `text`, in catalog order. -/
def firedOf (text : String) : List Detector :=
  detectors.filter (fun d => d.cond text)

/-- The reason record `add` pushes for a fired detector. -/
def reasonOf (d : Detector) : RiskReason :=
  ⟨d.label, d.pts, d.triggerPhrases⟩

/-- The plan actions accumulated by the `add` calls, before deduplication. -/
def rawPlanOf (text : String) : List String :=
  ((firedOf text).map (fun d => d.actions)).flatten

/-- The running total after all detectors: base 10 plus the fired deltas. -/
def rawScoreOf (text : String) : Int :=
  10 + ((firedOf text).map (fun d => d.pts)).sum

/-- Tier classification: `HIGH` from 70, `MEDIUM` from 40, else `LOW`. -/
def levelOf (score : Int) : String :=
  if 70 ≤ score then "HIGH" else if 40 ≤ score then "MEDIUM" else "LOW"

/-- Embedding of `scoreRisk`: run every detector in catalog order,
accumulate reasons, plan and score, clamp the score to `[0, 100]`,
classify the tier, deduplicate the plan and extract the links. -/
def scoreRisk (text : String) : RiskResult :=
  { score := max 0 (min 100 (rawScoreOf text)),
    level := levelOf (max 0 (min 100 (rawScoreOf text))),
    reasons := (firedOf text).map reasonOf,
    plan := insertionDedup [] (rawPlanOf text),
    links := extractLinks text }

/-! ### Demo texts from the source (`DEMOS`) -/

/-- The Scenario B demo message `DEMOS.bank_change`. -/
def bankChangeText : String :=
  "Hello,\nQuick update: our bank details have changed. Please pay the invoice to the NEW account below today.\nAccount name: NW Trading Ltd\nIBAN: XX00 0000 0000 0000\nAlso, keep this confidential and do not contact anyone else — we’re in a rush.\nThanks."

/-- The phrase "don't tell" written with a plain ASCII apostrophe, as the
specification spells the secrecy vocabulary. -/
def dontTellPlain : String :=
  String.mk ['d', 'o', 'n', aposChar, 't', ' ', 't', 'e', 'l', 'l']

/-- A message containing the plain-apostrophe secrecy phrase and nothing
else from the secrecy vocabulary of the source. -/
def c5Text : String := "please " ++ dontTellPlain ++ " anyone"

/-! ### Shared lemmas about `scoreRisk` -/

/-- A detector of the catalog whose predicate holds on the text
contributes its reason record to the result. -/
theorem mem_reasons_of_fired (text : String) (d : Detector)
    (hd : d ∈ detectors) (hc : d.cond text = true) :
    reasonOf d ∈ (scoreRisk text).reasons := by
  show reasonOf d ∈ (firedOf text).map reasonOf
  exact List.mem_map_of_mem reasonOf (List.mem_filter.mpr ⟨hd, hc⟩)

/-- Characterisation of the tier classification. -/
theorem levelOf_spec (s : Int) :
    (levelOf s = "HIGH" ↔ 70 ≤ s) ∧ (levelOf s = "MEDIUM" ↔ 40 ≤ s ∧ s < 70) ∧
    (levelOf s = "LOW" ↔ s < 40) := by
  unfold levelOf
  split_ifs with h1 h2
  · refine ⟨⟨fun _ => h1, fun _ => rfl⟩, ⟨?_, ?_⟩, ⟨?_, ?_⟩⟩
    · intro h; exact absurd h (by decide)
    · intro h; exfalso; omega
    · intro h; exact absurd h (by decide)
    · intro h; exfalso; omega
  · refine ⟨⟨?_, ?_⟩, ⟨fun _ => ⟨h2, by omega⟩, fun _ => rfl⟩, ⟨?_, ?_⟩⟩
    · intro h; exact absurd h (by decide)
    · intro h; exact absurd h h1
    · intro h; exact absurd h (by decide)
    · intro h; exfalso; omega
  · refine ⟨⟨?_, ?_⟩, ⟨?_, ?_⟩, ⟨fun _ => by omega, fun _ => rfl⟩⟩
    · intro h; exact absurd h (by decide)
    · intro h; exact absurd h h1
    · intro h; exact absurd h (by decide)
    · intro h; exact absurd h.1 h2

/-- Every detector of the catalog has a nonnegative point delta. -/
theorem detector_pts_nonneg : ∀ d ∈ detectors, (0 : Int) ≤ d.pts := by
  intro d hd
  simp only [detectors, List.mem_cons, List.not_mem_nil, or_false] at hd
  rcases hd with rfl | rfl | rfl | rfl | rfl | rfl | rfl | rfl <;> decide

/-! ### Claim theorems -/

/-- Claim C1: for every input text, `scoreRisk` clamps the running total
(base 10 plus the fired deltas) to `[0, 100]`, so the returned score is
an integer in that range. -/
theorem c1_score_clamped (text : String) :
    (scoreRisk text).score = max 0 (min 100 (rawScoreOf text)) ∧
    0 ≤ (scoreRisk text).score ∧ (scoreRisk text).score ≤ 100 := by
  refine ⟨rfl, ?_, ?_⟩
  · show (0 : Int) ≤ max 0 (min 100 (rawScoreOf text))
    exact le_max_left 0 _
  · show max 0 (min 100 (rawScoreOf text)) ≤ 100
    exact max_le (by norm_num) (min_le_left _ _)

/-- Claim C2: the tier is a pure total function of the clamped score,
with `HIGH` exactly from 70, `MEDIUM` exactly on `[40, 70)`, `LOW`
below 40; in particular 39 maps to LOW, 40 and 69 to MEDIUM, 70 to HIGH. -/
theorem c2_tier_of_score (text : String) :
    (scoreRisk text).level = levelOf ((scoreRisk text).score)
  ∧ ((scoreRisk text).level = "HIGH" ↔ 70 ≤ (scoreRisk text).score)
  ∧ ((scoreRisk text).level = "MEDIUM" ↔
      40 ≤ (scoreRisk text).score ∧ (scoreRisk text).score < 70)
  ∧ ((scoreRisk text).level = "LOW" ↔ (scoreRisk text).score < 40)
  ∧ levelOf 39 = "LOW" ∧ levelOf 40 = "MEDIUM" ∧ levelOf 69 = "MEDIUM" ∧
    levelOf 70 = "HIGH" := by
  have h := levelOf_spec ((scoreRisk text).score)
  exact ⟨rfl, h.1, h.2.1, h.2.2, by decide, by decide, by decide, by decide⟩

/-- Claim C3 (code bug): on the spec's own example, the sequential
replacement of `highlightMatches` re-marks the occurrence of "bank"
inside the span already claimed by "bank details have changed",
emitting nested highlight markers. -/
theorem c3_nested_highlight_markers :
    highlightMatches "our bank details have changed"
        ["bank details have changed", "bank"] =
      "our <mark><mark>bank</mark> details have changed</mark>" := by decide

/-- Claim C4: on the Scenario B bank-change demo message, the
payment-details-change (+30), secrecy (+18) and urgency (+12) detectors
all fire, the score reaches at least 70, the tier is HIGH, and the plan
contains the second-channel verification action. -/
theorem c4_scenario_b_high :
    (⟨"Payment details change request", 30,
        ["bank details have changed", "new account", "updated payment details"]⟩ :
      RiskReason) ∈ (scoreRisk bankChangeText).reasons
  ∧ (⟨"Secrecy request", 18, ["confidential", "don’t tell", "keep this secret"]⟩ :
      RiskReason) ∈ (scoreRisk bankChangeText).reasons
  ∧ (⟨"Urgency pressure", 12,
        ["urgent", "asap", "today", "immediately", "right now", "rush"]⟩ :
      RiskReason) ∈ (scoreRisk bankChangeText).reasons
  ∧ 70 ≤ (scoreRisk bankChangeText).score
  ∧ (scoreRisk bankChangeText).level = "HIGH"
  ∧ "Freeze payments: confirm new payment details via a verified second channel (call / known contact)." ∈
      (scoreRisk bankChangeText).plan := by
  have h : scoreRisk bankChangeText =
      { score := 86, level := "HIGH",
        reasons :=
          [⟨"Urgency pressure", 12,
              ["urgent", "asap", "today", "immediately", "right now", "rush"]⟩,
           ⟨"Secrecy request", 18, ["confidential", "don’t tell", "keep this secret"]⟩,
           ⟨"Payment details change request", 30,
              ["bank details have changed", "new account", "updated payment details"]⟩,
           ⟨"Missing or unclear amount", 10, []⟩,
           ⟨"Missing deadline / deliverables clarity", 6, []⟩],
        plan :=
          ["Slow down: verify key terms before sending money.",
           "Treat secrecy requests as a red flag. Confirm identity via a second channel.",
           "Freeze payments: confirm new payment details via a verified second channel (call / known contact).",
           "Compare the new details against previous invoices / contracts.",
           "Clarify the exact amount, currency, and milestone schedule in writing.",
           "Confirm deliverables, acceptance criteria, and deadline."],
        links := [] } := by decide
  rw [h]
  exact ⟨by decide, by decide, by decide, by decide, rfl, by decide⟩

/-- Claim C5 (counterexample): a text containing the plain-apostrophe
phrase "don't tell" of the spec's secrecy vocabulary does not fire the
secrecy detector, because the source regex uses the typographic
apostrophe. -/
theorem c5_plain_apostrophe_counterexample :
    containsCI c5Text dontTellPlain = true
  ∧ (∀ r ∈ (scoreRisk c5Text).reasons, r.label ≠ "Secrecy request") := by decide

/-- Claim C5 (amended): a text containing, case-insensitively, one of the
secrecy phrases as written in the source — "confidential", "don’t tell"
with the typographic apostrophe, or "keep this secret" — yields a reason
labeled "Secrecy request" worth +18. -/
theorem c5_secrecy_fires_amended (text : String)
    (h : containsCI text "confidential" = true ∨
         containsCI text "don’t tell" = true ∨
         containsCI text "keep this secret" = true) :
    ∃ r ∈ (scoreRisk text).reasons, r.label = "Secrecy request" ∧ r.pts = 18 := by
  have hc : secrecyDetector.cond text = true := by
    show secrecyHit text = true
    unfold secrecyHit
    rcases h with h | h | h <;> simp [h]
  have hmem : secrecyDetector ∈ detectors := by
    unfold detectors
    exact List.mem_cons_of_mem _ (List.mem_cons_self _ _)
  exact ⟨reasonOf secrecyDetector, mem_reasons_of_fired text secrecyDetector hmem hc,
    rfl, rfl⟩

/-- Claim C5 (witness for the amended theorem). -/
theorem c5_secrecy_fires_amended_witness :
    ∃ r ∈ (scoreRisk "keep this confidential").reasons,
      r.label = "Secrecy request" ∧ r.pts = 18 :=
  c5_secrecy_fires_amended "keep this confidential" (Or.inl (by decide))

/-- Claim C6 (counterexample): on the input "rush" the urgency detector
fires, and its reason lists trigger phrases (such as "urgent") that do
not occur in the input, refuting the claim that every listed phrase
occurs in the text. -/
theorem c6_trigger_phrases_counterexample :
    ¬ (∀ r ∈ (scoreRisk "rush").reasons,
        ∀ p ∈ r.triggerPhrases, containsCI "rush" p = true) := by decide

/-- Claim C6 (amended): every reason emitted by `scoreRisk` is the record
of a catalog detector whose predicate holds on the text, and carries that
detector's fixed trigger-phrase vocabulary — not the subset of phrases
actually present in the text. -/
theorem c6_trigger_phrases_amended (text : String) (r : RiskReason)
    (h : r ∈ (scoreRisk text).reasons) :
    ∃ d ∈ detectors, d.cond text = true ∧ r.label = d.label ∧ r.pts = d.pts ∧
      r.triggerPhrases = d.triggerPhrases := by
  have h' : r ∈ (firedOf text).map reasonOf := h
  rcases List.mem_map.mp h' with ⟨d, hd, rfl⟩
  rcases List.mem_filter.mp hd with ⟨hdet, hcond⟩
  exact ⟨d, hdet, hcond, rfl, rfl, rfl⟩

/-- Claim C6 (witness for the amended theorem). -/
theorem c6_trigger_phrases_amended_witness :
    ∃ d ∈ detectors, d.cond "rush" = true ∧
      (⟨"Urgency pressure", 12,
          ["urgent", "asap", "today", "immediately", "right now", "rush"]⟩ :
        RiskReason).label = d.label ∧
      (⟨"Urgency pressure", 12,
          ["urgent", "asap", "today", "immediately", "right now", "rush"]⟩ :
        RiskReason).pts = d.pts ∧
      (⟨"Urgency pressure", 12,
          ["urgent", "asap", "today", "immediately", "right now", "rush"]⟩ :
        RiskReason).triggerPhrases = d.triggerPhrases :=
  c6_trigger_phrases_amended "rush"
    ⟨"Urgency pressure", 12,
      ["urgent", "asap", "today", "immediately", "right now", "rush"]⟩ (by decide)

/-- Claim C7: the plan of every result is the insertion-ordered
deduplication of the actions of the fired detectors: it has no
duplicates, is a subsequence of the raw action sequence, keeps exactly
its elements, and preserves the relative order of first occurrences. -/
theorem c7_plan_dedup_order (text : String) :
    (scoreRisk text).plan = insertionDedup [] (rawPlanOf text)
  ∧ ((scoreRisk text).plan).Nodup
  ∧ ((scoreRisk text).plan).Sublist (rawPlanOf text)
  ∧ (∀ a, a ∈ (scoreRisk text).plan ↔ a ∈ rawPlanOf text)
  ∧ (∀ a b, a ∈ (scoreRisk text).plan → b ∈ (scoreRisk text).plan →
      (idxOf a (rawPlanOf text) < idxOf b (rawPlanOf text) ↔
       idxOf a ((scoreRisk text).plan) < idxOf b ((scoreRisk text).plan))) := by
  refine ⟨rfl, nodup_insertionDedup _ _, insertionDedup_sublist _ _, ?_, ?_⟩
  · intro a
    rw [show (scoreRisk text).plan = insertionDedup [] (rawPlanOf text) from rfl,
      mem_insertionDedup]
    simp
  · intro a b ha hb
    exact insertionDedup_idx_iff (rawPlanOf text) a b ha hb

/-- Claim C7 (witness): the order-preservation component applied on a
concrete input with concrete plan entries. -/
theorem c7_plan_dedup_order_witness :
    ((scoreRisk "rush").plan).Nodup
  ∧ "Slow down: verify key terms before sending money." ∈ (scoreRisk "rush").plan
  ∧ (idxOf "Slow down: verify key terms before sending money." (rawPlanOf "rush") <
       idxOf "Confirm deliverables, acceptance criteria, and deadline." (rawPlanOf "rush") ↔
     idxOf "Slow down: verify key terms before sending money." ((scoreRisk "rush").plan) <
       idxOf "Confirm deliverables, acceptance criteria, and deadline."
         ((scoreRisk "rush").plan)) := by
  refine ⟨(c7_plan_dedup_order "rush").2.1, ?_, ?_⟩
  · exact ((c7_plan_dedup_order "rush").2.2.2.1 _).mpr (by decide)
  · exact (c7_plan_dedup_order "rush").2.2.2.2 _ _ (by decide) (by decide)

/-- Claim C8: `extractLinks` keeps the first 8 raw regex matches and
deduplicates them preserving first-seen order, so the result has no
duplicates, length at most 8, and is a subsequence of the capped raw
match sequence. -/
theorem c8_links_nodup_bounded (text : String) :
    extractLinks text = insertionDedup [] ((rawLinkMatches text).take 8)
  ∧ (extractLinks text).Nodup
  ∧ (extractLinks text).length ≤ 8
  ∧ (extractLinks text).Sublist ((rawLinkMatches text).take 8) := by
  refine ⟨rfl, nodup_insertionDedup _ _, ?_, insertionDedup_sublist _ _⟩
  calc (extractLinks text).length ≤ ((rawLinkMatches text).take 8).length :=
        (insertionDedup_sublist _ _).length_le
    _ ≤ 8 := List.length_take_le _ _

/-- Claim C9: `scoreRisk` on the empty string returns the valid, clamped
result with the base score plus the two absence-driven deltas (missing
amount +10, missing deadline +6), the tier given by the thresholds, a
deduplicated plan and no links. -/
theorem c9_empty_input_valid :
    scoreRisk "" =
      { score := 26, level := "LOW",
        reasons := [⟨"Missing or unclear amount", 10, []⟩,
                    ⟨"Missing deadline / deliverables clarity", 6, []⟩],
        plan := ["Clarify the exact amount, currency, and milestone schedule in writing.",
                 "Confirm deliverables, acceptance criteria, and deadline."],
        links := [] }
  ∧ (scoreRisk "").score = 10 + 10 + 6
  ∧ (scoreRisk "").level = levelOf ((scoreRisk "").score)
  ∧ ((scoreRisk "").plan).Nodup
  ∧ extractLinks "" = []
  ∧ extractAmount "" = none ∧ extractDeadline "" = none := by
  exact ⟨by decide, by decide, rfl, by decide, by decide, by decide, by decide⟩

/-- Claim C10: the running total starts at 10 and all detector deltas are
nonnegative, so the clamped score always lies in `[10, 100]` and the
lower clamp bound 0 is never the active bound. -/
theorem c10_score_lower_bound (text : String) :
    10 ≤ (scoreRisk text).score ∧ (scoreRisk text).score ≤ 100 := by
  have hsum : (0 : Int) ≤ ((firedOf text).map (fun d => d.pts)).sum := by
    apply List.sum_nonneg
    intro x hx
    rcases List.mem_map.mp hx with ⟨d, hd, rfl⟩
    exact detector_pts_nonneg d (List.mem_of_mem_filter hd)
  constructor
  · show (10 : Int) ≤ max 0 (min 100 (rawScoreOf text))
    have h1 : (10 : Int) ≤ rawScoreOf text := by
      unfold rawScoreOf; omega
    have h2 : (10 : Int) ≤ min 100 (rawScoreOf text) := le_min (by norm_num) h1
    exact le_trans h2 (le_max_right 0 _)
  · show max 0 (min 100 (rawScoreOf text)) ≤ 100
    exact max_le (by norm_num) (min_le_left _ _)

end DealShield
